import Mathlib

/-!
Verification of the docuchat retrieval pipeline.

The JavaScript sources are embedded shallowly:
* document text is a `List Char` (a JS string is a sequence of code units);
* JS numbers are modelled as `ℚ` (exact arithmetic; `Math.sqrt` is modelled
  by `ratSqrt`, which is exact on perfect squares — every numeric fact
  proved below evaluates the model only at such points);
* the `while` loops that advance an index are modelled with an explicit
  fuel argument equal to the character count, which bounds the number of
  iterations whenever the step is positive (the guarded case in the code);
* fallible functions return `Except`.
-/

namespace DocuChat

/-! ### Chunker, sliding-window version (src/documents/index.js, lines 25-41)

`while (i < text.length) { chunks.push(text.substring(i, i + chunkSize)); i += chunkSize - chunkOverlap }`
modelled with fuel: each iteration consumes at least one character when the
step `chunkSize - chunkOverlap` is at least 1, so `text.length` iterations
suffice. -/

def slidingAux (size step : ℕ) : ℕ → List Char → List (List Char)
  | _, [] => []
  | 0, _ :: _ => []
  | fuel + 1, c :: cs => ((c :: cs).take size) :: slidingAux size step fuel ((c :: cs).drop step)

def slidingChunks (size step : ℕ) (text : List Char) : List (List Char) :=
  slidingAux size step text.length text

/-- Chunker of src/documents/index.js: plain sliding windows of `chunkSize`
advancing by `chunkSize - chunkOverlap`, after the `chunkOverlap >= chunkSize`
guard. -/
def splitTextIntoChunksWindow (text : List Char) (chunkSize chunkOverlap : ℕ) :
    Except String (List (List Char)) :=
  if chunkOverlap ≥ chunkSize then
    Except.error "chunkOverlap must be smaller than chunkSize"
  else
    Except.ok (slidingChunks chunkSize (chunkSize - chunkOverlap) text)

/-! ### Chunker, recursive version (src/unnamed/part_000, lines 25-104) -/

/-- The separator list `['\n\n', '\n', '. ', ' ', '']` of the recursive splitter. -/
def separators : List (List Char) := [['\n', '\n'], ['\n'], ['.', ' '], [' '], []]

/-- JS `text.split(separator)` for a nonempty separator, with fuel
(`text.length` iterations suffice since every step consumes at least one
character when the separator is nonempty; the code only splits on nonempty
separators). -/
def splitOnSeqAux (sep : List Char) : ℕ → List Char → List Char → List (List Char)
  | _, acc, [] => [acc.reverse]
  | 0, acc, rest => [acc.reverse ++ rest]
  | fuel + 1, acc, c :: cs =>
    if sep.isPrefixOf (c :: cs) then
      acc.reverse :: splitOnSeqAux sep fuel [] ((c :: cs).drop sep.length)
    else
      splitOnSeqAux sep fuel (c :: acc) cs

def splitOnSeq (sep text : List Char) : List (List Char) :=
  splitOnSeqAux sep text.length [] text

/-- The inner `_split(text, currentSeparators)` of part_000: recursive
boundary-preserving split, structurally recursive on the separator list. -/
def splitRec (chunkSize chunkOverlap : ℕ) : List (List Char) → List Char → List (List Char)
  | seps, text =>
    if text.length ≤ chunkSize then [text]
    else
      match seps with
      | [] => slidingChunks chunkSize (chunkSize - chunkOverlap) text
      | sep :: rest =>
        if sep = [] then
          splitRec chunkSize chunkOverlap rest text
        else
          (splitOnSeq sep text).flatMap fun piece =>
            if chunkSize < piece.length then splitRec chunkSize chunkOverlap rest piece
            else [piece]

/-- JS `separators.find(s => prev.endsWith(s)) || ' '`: the first separator
that is a suffix of the previous piece; the empty string (always found last)
is falsy in JS, so it falls back to a single space. -/
def mergeSepFor (prev : List Char) : List Char :=
  match separators.find? (fun s => s.isSuffixOf prev) with
  | some s => if s = [] then [' '] else s
  | none => [' ']

/-- The merge pass of part_000 (lines 69-89): greedily pack consecutive
pieces, flushing the running buffer when the next piece (plus joining
separator) would overflow `chunkSize`.  `prev` carries `initialSplits[i-1]`
and is `none` exactly when `i = 0`. -/
def mergeGo (chunkSize : ℕ) (cur : List Char) (prev : Option (List Char)) :
    List (List Char) → List (List Char)
  | [] => if cur = [] then [] else [cur]
  | s :: rest =>
    let sep := match prev with
      | some p => if cur = [] then [] else mergeSepFor p
      | none => []
    if chunkSize < cur.length + s.length + sep.length then
      cur :: mergeGo chunkSize s (some s) rest
    else
      mergeGo chunkSize ((if cur = [] then [] else cur ++ sep) ++ s) (some s) rest

/-- The overlap pass of part_000 (lines 92-101): re-slice any merged chunk
still exceeding `chunkSize` into fixed windows advancing by
`chunkSize - chunkOverlap`. -/
def overlapPass (chunkSize chunkOverlap : ℕ) (chunks : List (List Char)) : List (List Char) :=
  chunks.flatMap fun c =>
    if chunkSize < c.length then slidingChunks chunkSize (chunkSize - chunkOverlap) c
    else [c]

/-- JS `chunk.trim() !== ''` keeps a chunk iff it has a non-whitespace
character. -/
def keepChunk (c : List Char) : Bool := !(c.all Char.isWhitespace)

/-- Chunker of src/unnamed/part_000: guard, recursive split, merge pass,
overlap pass, and the final whitespace filter. -/
def splitTextIntoChunksRec (text : List Char) (chunkSize chunkOverlap : ℕ) :
    Except String (List (List Char)) :=
  if chunkOverlap ≥ chunkSize then
    Except.error "chunkOverlap must be smaller than chunkSize"
  else
    let initialSplits := splitRec chunkSize chunkOverlap separators text
    let mergedChunks := mergeGo chunkSize [] none initialSplits
    let finalChunks := overlapPass chunkSize chunkOverlap mergedChunks
    Except.ok (finalChunks.filter keepChunk)

/-! ### Chunk-length bound (claim C1) -/

theorem mem_slidingAux_length {size step fuel : ℕ} {text c : List Char}
    (hc : c ∈ slidingAux size step fuel text) : c.length ≤ size := by
  induction fuel generalizing text with
  | zero =>
    cases text with
    | nil => simp [slidingAux] at hc
    | cons x xs => simp [slidingAux] at hc
  | succ fuel ih =>
    cases text with
    | nil => simp [slidingAux] at hc
    | cons x xs =>
      simp only [slidingAux, List.mem_cons] at hc
      rcases hc with h | h
      · subst h
        simp
      · exact ih h

theorem mem_slidingChunks_length {size step : ℕ} {text c : List Char}
    (hc : c ∈ slidingChunks size step text) : c.length ≤ size :=
  mem_slidingAux_length hc

theorem mem_splitRec_length {chunkSize chunkOverlap : ℕ} (seps : List (List Char))
    (text : List Char) {c : List Char}
    (hc : c ∈ splitRec chunkSize chunkOverlap seps text) : c.length ≤ chunkSize := by
  induction seps generalizing text with
  | nil =>
    rw [splitRec] at hc
    by_cases h : text.length ≤ chunkSize
    · simp only [if_pos h, List.mem_singleton] at hc
      exact hc ▸ h
    · simp only [if_neg h] at hc
      exact mem_slidingChunks_length hc
  | cons sep rest ih =>
    rw [splitRec] at hc
    by_cases h : text.length ≤ chunkSize
    · simp only [if_pos h, List.mem_singleton] at hc
      exact hc ▸ h
    · simp only [if_neg h] at hc
      by_cases hsep : sep = []
      · simp only [if_pos hsep] at hc
        exact ih text hc
      · simp only [if_neg hsep, List.mem_flatMap] at hc
        obtain ⟨piece, _, hmem⟩ := hc
        by_cases hp : chunkSize < piece.length
        · rw [if_pos hp] at hmem
          exact ih piece hmem
        · rw [if_neg hp, List.mem_singleton] at hmem
          subst hmem
          omega

theorem mem_overlapPass_length {chunkSize chunkOverlap : ℕ} {chunks : List (List Char)}
    {c : List Char} (hc : c ∈ overlapPass chunkSize chunkOverlap chunks) :
    c.length ≤ chunkSize := by
  simp only [overlapPass, List.mem_flatMap] at hc
  obtain ⟨piece, _, hmem⟩ := hc
  by_cases hp : chunkSize < piece.length
  · rw [if_pos hp] at hmem
    exact mem_slidingChunks_length hmem
  · rw [if_neg hp, List.mem_singleton] at hmem
    subst hmem
    omega

/-- C1: with `chunkOverlap < chunkSize`, every chunk emitted by either
version of `splitTextIntoChunks` (the sliding-window splitter of
src/documents/index.js and the recursive splitter of src/unnamed/part_000)
has length at most `chunkSize`. -/
theorem chunks_length_le_chunkSize (text : List Char) (chunkSize chunkOverlap : ℕ)
    (h : chunkOverlap < chunkSize) :
    (∀ l, splitTextIntoChunksWindow text chunkSize chunkOverlap = Except.ok l →
      ∀ c ∈ l, c.length ≤ chunkSize) ∧
    (∀ l, splitTextIntoChunksRec text chunkSize chunkOverlap = Except.ok l →
      ∀ c ∈ l, c.length ≤ chunkSize) := by
  constructor
  · intro l hl c hc
    rw [splitTextIntoChunksWindow, if_neg (by omega)] at hl
    rw [Except.ok.injEq] at hl
    subst hl
    exact mem_slidingChunks_length hc
  · intro l hl c hc
    rw [splitTextIntoChunksRec, if_neg (by omega)] at hl
    rw [Except.ok.injEq] at hl
    subst hl
    exact mem_overlapPass_length (List.mem_filter.mp hc).1

/-- Witness for C1 at `text = "ab"`, `chunkSize = 2`, `chunkOverlap = 0`. -/
theorem chunks_length_le_chunkSize_witness :
    (0 < 2) ∧ (['a', 'b'] : List Char).length ≤ 2 :=
  ⟨by decide,
    (chunks_length_le_chunkSize ['a', 'b'] 2 0 (by decide)).1 [['a', 'b']] (by rfl)
      ['a', 'b'] (by decide)⟩

/-- C10: both splitters are total: they reject `chunkOverlap >= chunkSize`
with the configuration error and otherwise return a (finite) chunk list;
the window loops advance by `chunkSize - chunkOverlap >= 1` per step and the
recursive splitter consumes a strictly shorter separator list on each
recursive call, which is what makes the model's recursions well-founded. -/
theorem splitTextIntoChunks_total (text : List Char) (chunkSize chunkOverlap : ℕ) :
    (chunkSize ≤ chunkOverlap →
      splitTextIntoChunksWindow text chunkSize chunkOverlap =
        Except.error "chunkOverlap must be smaller than chunkSize" ∧
      splitTextIntoChunksRec text chunkSize chunkOverlap =
        Except.error "chunkOverlap must be smaller than chunkSize") ∧
    (chunkOverlap < chunkSize →
      (∃ l, splitTextIntoChunksWindow text chunkSize chunkOverlap = Except.ok l) ∧
      (∃ l, splitTextIntoChunksRec text chunkSize chunkOverlap = Except.ok l)) := by
  constructor
  · intro hle
    rw [splitTextIntoChunksWindow, if_pos (by omega), splitTextIntoChunksRec, if_pos (by omega)]
    exact ⟨rfl, rfl⟩
  · intro hlt
    rw [splitTextIntoChunksWindow, if_neg (by omega), splitTextIntoChunksRec, if_neg (by omega)]
    exact ⟨⟨_, rfl⟩, ⟨_, rfl⟩⟩

/-- Witness for C10 at `text = "a"`, `chunkSize = 2`, `chunkOverlap = 1`. -/
theorem splitTextIntoChunks_total_witness :
    (∃ l, splitTextIntoChunksWindow ['a'] 2 1 = Except.ok l) ∧
    (∃ l, splitTextIntoChunksRec ['a'] 2 1 = Except.ok l) :=
  (splitTextIntoChunks_total ['a'] 2 1).2 (by decide)

/-! ### Coverage (claim C2)

The sliding windows cover every input position.  The recursive splitter does
not: `text.split(separator)` removes the separator characters, and the merge
pass re-joins pieces with a single space, so separator characters of a text
longer than `chunkSize` can appear in no chunk at all. -/

theorem slidingAux_cover (size step : ℕ) (h1 : 1 ≤ step) (h2 : step ≤ size) :
    ∀ (fuel : ℕ) (text : List Char), text.length ≤ fuel →
      ∀ i < text.length, ∃ c ∈ slidingAux size step fuel text, ∃ s : ℕ,
        s ≤ i ∧ i < s + c.length ∧ c = (text.drop s).take size := by
  intro fuel
  induction fuel with
  | zero =>
    intro text hlen i hi
    omega
  | succ fuel ih =>
    intro text hlen i hi
    cases text with
    | nil => simp at hi
    | cons x xs =>
      by_cases hcase : i < step
      · refine ⟨(x :: xs).take size, by simp [slidingAux], 0, by omega, ?_, by simp⟩
        simp only [List.length_take]
        omega
      · have hlen' : xs.length + 1 ≤ fuel + 1 := by simpa using hlen
        have hi' : i < xs.length + 1 := by simpa using hi
        have hdrop : ((x :: xs).drop step).length ≤ fuel := by
          simp only [List.length_drop, List.length_cons]
          omega
        have hidx : i - step < ((x :: xs).drop step).length := by
          simp only [List.length_drop, List.length_cons]
          omega
        obtain ⟨c, hc, s, hs1, hs2, hs3⟩ := ih ((x :: xs).drop step) hdrop (i - step) hidx
        refine ⟨c, ?_, step + s, by omega, by omega, ?_⟩
        · simp only [slidingAux, List.mem_cons]
          exact Or.inr hc
        · rw [hs3, List.drop_drop]

/-- C2 as amended: every character position of the input lies inside at
least one window emitted by the sliding-window splitter of
src/documents/index.js (each chunk is a literal slice of the input, so the
character at position `i` occurs at offset `i - s` of the covering chunk). -/
theorem windowChunks_cover (text : List Char) (chunkSize chunkOverlap : ℕ)
    (l : List (List Char))
    (hl : splitTextIntoChunksWindow text chunkSize chunkOverlap = Except.ok l) :
    ∀ i < text.length, ∃ c ∈ l, ∃ s : ℕ,
      s ≤ i ∧ i < s + c.length ∧ c = (text.drop s).take chunkSize := by
  rw [splitTextIntoChunksWindow] at hl
  by_cases h : chunkOverlap ≥ chunkSize
  · rw [if_pos h] at hl
    exact absurd hl (by simp)
  · rw [if_neg h] at hl
    rw [Except.ok.injEq] at hl
    subst hl
    exact slidingAux_cover chunkSize (chunkSize - chunkOverlap) (by omega) (by omega)
      text.length text le_rfl

/-- Witness for the amended C2 at `text = "abc"`, `chunkSize = 2`,
`chunkOverlap = 1`, position `i = 2`. -/
theorem windowChunks_cover_witness :
    ∃ c ∈ [['a', 'b'], ['b', 'c'], ['c']], ∃ s : ℕ,
      s ≤ 2 ∧ 2 < s + c.length ∧ c = ("abc".toList.drop s).take 2 :=
  windowChunks_cover "abc".toList 2 1 [['a', 'b'], ['b', 'c'], ['c']] (by rfl) 2 (by decide)

/-- Counterexample to C2 as stated: for `text = "aaaa\n\nbb"`,
`chunkSize = 3`, `chunkOverlap = 0`, the recursive splitter of
src/unnamed/part_000 returns chunks containing no newline, although the
input contains newlines — the characters of the `"\n\n"` separator appear in
no returned chunk. -/
theorem splitRec_not_covering :
    splitTextIntoChunksRec "aaaa\n\nbb".toList 3 0 =
      Except.ok [['a', 'a', 'a'], ['a'], ['b', 'b']] ∧
    '\n' ∈ "aaaa\n\nbb".toList ∧
    '\n' ∉ [['a', 'a', 'a'], ['a'], ['b', 'b']].flatten :=
  ⟨by rfl, by decide, by decide⟩

/-! ### Similarity engine (src/src/rag/index.js, lines 144-152)

JS numbers become `ℚ`; `Math.sqrt` becomes `ratSqrt`, exact on perfect
squares (every concrete evaluation below happens at perfect squares). -/

/-- Floor square root on `ℕ`, written with a structural search so that it
evaluates inside the kernel. -/
def floorSqrtNat (n : ℕ) : ℕ :=
  ((List.range (n + 1)).filter fun k => decide (k * k ≤ n)).foldr max 0

/-- Model of `Math.sqrt` on `ℚ`: exact whenever the numerator and
denominator are perfect squares, and `ratSqrt q = 0` iff the (nonnegative)
radicand is `0`, which is all the code relies on. -/
def ratSqrt (q : ℚ) : ℚ :=
  (floorSqrtNat q.num.toNat : ℚ) / (floorSqrtNat q.den : ℚ)

/-- JS `vecA.reduce((sum, a, i) => sum + a * vecB[i], 0)`: fold over `vecA`
with a running index into `vecB`.  A JS out-of-range read gives `NaN`; the
model reads `0` there, and every fact proved below evaluates the dot product
only with `vecA` no longer than `vecB`, where the two agree. -/
def reduceDot (b : List ℚ) : List ℚ → ℕ → ℚ → ℚ
  | [], _, sum => sum
  | x :: xs, i, sum => reduceDot b xs (i + 1) (sum + x * b.getD i 0)

/-- JS `vec.reduce((sum, a) => sum + a * a, 0)`. -/
def sumSquares (v : List ℚ) : ℚ := v.foldl (fun sum a => sum + a * a) 0

/-- `cosineSimilarity` of src/src/rag/index.js: dot product over `vecA`'s
indices divided by the product of magnitudes, with a zero-magnitude guard
returning 0. -/
def cosineSimilarity (vecA vecB : List ℚ) : ℚ :=
  let dotProduct := reduceDot vecB vecA 0 0
  let magnitudeA := ratSqrt (sumSquares vecA)
  let magnitudeB := ratSqrt (sumSquares vecB)
  if magnitudeA = 0 ∨ magnitudeB = 0 then 0
  else dotProduct / (magnitudeA * magnitudeB)

/-- Modelled from the spec (§4.2, §7): cosine similarity that fails with a
`DimensionMismatchError` when the two vectors have different dimensions,
and otherwise computes dot(a,b)/(‖a‖·‖b‖) with the zero-magnitude guard.
This definition follows the spec's words; the code's version is
`cosineSimilarity` above. -/
def cosineSimilaritySpec (a b : List ℚ) : Except String ℚ :=
  if a.length ≠ b.length then Except.error "DimensionMismatchError"
  else
    let dot := ((a.zip b).map fun p => p.1 * p.2).sum
    let magA := ratSqrt (sumSquares a)
    let magB := ratSqrt (sumSquares b)
    if magA = 0 ∨ magB = 0 then Except.ok 0
    else Except.ok (dot / (magA * magB))

/-! ### Candidate rows and MMR re-ranking (src/src/rag/index.js, lines 162-211) -/

/-- A row returned by `searchSimilarEmbeddings` (src/unnamed/part_003,
lines 187-235): chunk id, content, owning document id, similarity score and
stored embedding. -/
structure Chunk where
  chunk_id : String
  content : String
  document_id : String
  similarity : ℚ
  embedding : List ℚ
deriving DecidableEq

/-- The JS sort comparator `(a, b) => b.similarity - a.similarity`:
`a` may precede `b` iff `b.similarity ≤ a.similarity` (descending). -/
def simOrder (a b : Chunk) : Prop := b.similarity ≤ a.similarity

instance : DecidableRel simOrder := fun a b =>
  decidable_of_iff (b.similarity ≤ a.similarity) Iff.rfl

instance : IsTotal Chunk simOrder := ⟨fun a b => le_total b.similarity a.similarity⟩

instance : IsTrans Chunk simOrder := ⟨fun _ _ _ h1 h2 => le_trans h2 h1⟩

/-- JS `Math.max(...)` over a list; the code only applies it to the
nonempty list of already-selected chunks. -/
def maxQ : List ℚ → ℚ
  | [] => 0
  | x :: xs => xs.foldl max x

/-- The selection scan of the MMR loop: `bestScore` starts at `-Infinity`
(so the first candidate always wins the first comparison) and a strictly
greater score replaces the current best — first encountered maximum wins. -/
def bestIdxAux : ℕ → ℕ → ℚ → List ℚ → ℕ
  | _, bi, _, [] => bi
  | i, bi, bs, s :: rest =>
    if bs < s then bestIdxAux (i + 1) i s rest else bestIdxAux (i + 1) bi bs rest

def bestIdx : List ℚ → Option ℕ
  | [] => none
  | s :: rest => some (bestIdxAux 1 0 s rest)

/-- The MMR score list for the unselected candidates:
`lambda * relevance - (1 - lambda) * max pairwise similarity to selected`. -/
def mmrScores (lambda : ℚ) (selected remaining : List Chunk) : List ℚ :=
  remaining.map fun c =>
    lambda * c.similarity -
      (1 - lambda) * maxQ (selected.map fun s => cosineSimilarity c.embedding s.embedding)

/-- The `while (selectedChunks.length < k && remainingChunks.length > 0)`
loop of `maximalMarginalRelevance`, with fuel: each iteration removes one
remaining candidate, so `remaining.length` iterations suffice. -/
def mmrLoop (lambda : ℚ) (k : ℕ) : ℕ → List Chunk → List Chunk → List Chunk
  | _, selected, [] => selected
  | 0, selected, _ :: _ => selected
  | fuel + 1, selected, r :: rs =>
    if selected.length < k then
      match bestIdx (mmrScores lambda selected (r :: rs)) with
      | some i => mmrLoop lambda k fuel (selected ++ [(r :: rs).getD i r]) ((r :: rs).eraseIdx i)
      | none => selected
    else selected

/-- `maximalMarginalRelevance` of src/src/rag/index.js: annotate every
candidate with its relevance to the query, sort by similarity descending
(JS `Array.prototype.sort` is stable; `insertionSort` is the stable sort of
the library), seed with the most relevant candidate, then iterate the
selection loop.  The JS defaults are `lambda = 0.5`, `k = 10`. -/
def maximalMarginalRelevance (queryEmbedding : List ℚ) (chunks : List Chunk)
    (lambda : ℚ) (k : ℕ) : List Chunk :=
  if chunks = [] then []
  else
    let rankedChunks := chunks.map fun c =>
      { c with similarity := cosineSimilarity queryEmbedding c.embedding }
    match rankedChunks.insertionSort simOrder with
    | [] => []
    | firstChunk :: remaining => mmrLoop lambda k remaining.length [firstChunk] remaining

/-- Plain top-k relevance ordering: candidates sorted by cosine similarity
to the query, descending (stably), truncated to the first `k`. -/
def topKByRelevance (queryEmbedding : List ℚ) (chunks : List Chunk) (k : ℕ) : List Chunk :=
  ((chunks.map fun c =>
    { c with similarity := cosineSimilarity queryEmbedding c.embedding }).insertionSort
      simOrder).take k

/-! ### Concrete evaluation helpers -/

theorem floorSqrtNat_zero : floorSqrtNat 0 = 0 := by decide

theorem floorSqrtNat_one : floorSqrtNat 1 = 1 := by decide

theorem floorSqrtNat_25 : floorSqrtNat 25 = 5 := by decide

theorem toNat_25 : (25 : ℤ).toNat = 25 := by decide

/-! ### The MMR selection scan picks the first maximum (claim C5) -/

theorem bestIdxAux_spec :
    ∀ (rest pre : List ℚ) (bi : ℕ) (bs : ℚ),
      bi < pre.length → pre.getD bi 0 = bs → (∀ x ∈ pre, x ≤ bs) →
      (∀ j < bi, pre.getD j 0 < bs) →
      bestIdxAux pre.length bi bs rest < (pre ++ rest).length ∧
      (∀ x ∈ pre ++ rest, x ≤ (pre ++ rest).getD (bestIdxAux pre.length bi bs rest) 0) ∧
      (∀ j < bestIdxAux pre.length bi bs rest,
        (pre ++ rest).getD j 0 < (pre ++ rest).getD (bestIdxAux pre.length bi bs rest) 0) := by
  intro rest
  induction rest with
  | nil =>
    intro pre bi bs hbi hget hle hlt
    simp only [bestIdxAux, List.append_nil]
    exact ⟨hbi, fun x hx => hget ▸ hle x hx, fun j hj => hget ▸ hlt j hj⟩
  | cons s rest ih =>
    intro pre bi bs hbi hget hle hlt
    simp only [bestIdxAux]
    by_cases hcmp : bs < s
    · rw [if_pos hcmp]
      have key := ih (pre ++ [s]) pre.length s (by simp)
        (by rw [List.getD_append_right _ _ _ _ le_rfl]; simp)
        (by
          intro x hx
          rcases List.mem_append.mp hx with hx | hx
          · exact le_of_lt (lt_of_le_of_lt (hle x hx) hcmp)
          · simp only [List.mem_singleton] at hx
            exact hx ▸ le_rfl)
        (by
          intro j hj
          rw [List.getD_append _ _ _ _ hj]
          have hmem : pre.getD j 0 ∈ pre := by
            rw [List.getD_eq_getElem _ _ hj]
            exact List.getElem_mem hj
          exact lt_of_le_of_lt (hle _ hmem) hcmp)
      simp only [List.length_append, List.length_singleton, List.append_assoc,
        List.singleton_append] at key
      simpa only [List.length_append] using key
    · rw [if_neg hcmp]
      have key := ih (pre ++ [s]) bi bs (by simp; omega)
        (by rw [List.getD_append _ _ _ _ hbi]; exact hget)
        (by
          intro x hx
          rcases List.mem_append.mp hx with hx | hx
          · exact hle x hx
          · simp only [List.mem_singleton] at hx
            exact hx ▸ not_lt.mp hcmp)
        (by
          intro j hj
          rw [List.getD_append _ _ _ _ (lt_trans hj hbi)]
          exact hlt j hj)
      simp only [List.length_append, List.length_singleton, List.append_assoc,
        List.singleton_append] at key
      simpa only [List.length_append] using key

/-- C5 as amended: the selection scan of `maximalMarginalRelevance` picks,
among the *remaining* candidates (which the function keeps in stable
similarity-descending order, not in input order), the first index attaining
the maximal MMR score: every candidate before the selected one in the scan
order has a strictly smaller score.  The second conjunct records that the
scan indeed runs over the similarity-sorted remainder of the candidate
list. -/
theorem mmr_selection_first_max :
    (∀ (scores : List ℚ) (i : ℕ), bestIdx scores = some i →
      i < scores.length ∧ (∀ x ∈ scores, x ≤ scores.getD i 0) ∧
      ∀ j < i, scores.getD j 0 < scores.getD i 0) ∧
    (∀ (queryEmbedding : List ℚ) (chunks : List Chunk) (lambda : ℚ) (k : ℕ),
      maximalMarginalRelevance queryEmbedding chunks lambda k =
        if chunks = [] then []
        else
          match (chunks.map fun c =>
            { c with similarity := cosineSimilarity queryEmbedding c.embedding }).insertionSort
              simOrder with
          | [] => []
          | firstChunk :: remaining => mmrLoop lambda k remaining.length [firstChunk] remaining) := by
  constructor
  · intro scores i h
    cases scores with
    | nil => simp [bestIdx] at h
    | cons s rest =>
      simp only [bestIdx, Option.some.injEq] at h
      subst h
      have key := bestIdxAux_spec rest [s] 0 s (by simp) (by simp) (by simp)
        (fun j hj => absurd hj (Nat.not_lt_zero j))
      simpa using key
  · intro queryEmbedding chunks lambda k
    rfl

/-- Witness for the amended C5 at `scores = [1, 3, 2]`, where the scan
returns index 1. -/
theorem mmr_selection_first_max_witness :
    1 < [(1 : ℚ), 3, 2].length ∧
    (∀ x ∈ [(1 : ℚ), 3, 2], x ≤ [(1 : ℚ), 3, 2].getD 1 0) ∧
    ∀ j < 1, [(1 : ℚ), 3, 2].getD j 0 < [(1 : ℚ), 3, 2].getD 1 0 :=
  mmr_selection_first_max.1 [1, 3, 2] 1 (by decide)

/-- A query-time candidate with embedding `[-1]` (relevance −1 to the query
`[1]`), listed first in the input order of the counterexample below. -/
def c1E : Chunk := ⟨"c1", "c1", "doc", 0, [-1]⟩

/-- A candidate with the zero embedding `[0]` (relevance 0), listed second. -/
def c2E : Chunk := ⟨"c2", "c2", "doc", 0, [0]⟩

/-- A candidate with embedding `[1]` (relevance 1), listed third. -/
def c3E : Chunk := ⟨"c3", "c3", "doc", 0, [1]⟩

/-- Counterexample to C5 as stated: with query `[1]`, candidates
`[c1E, c2E, c3E]` and the JS defaults `lambda = 0.5`, `k = 10`, the second
selection step is a tie — both unselected candidates score 0, as the second
conjunct shows on the loop's own score list (`selected` holds the annotated
`c3E`, `remaining` is the similarity-sorted `[c2E, c1E]`) — yet the
function selects `c2E` before `c1E` (first conjunct), while `c1E` occurs
earlier in the input candidate list (third conjunct).  Ties are broken by
position in the similarity-sorted remaining list, not by input order, so
the claimed output `["c3", "c1", "c2"]` is not produced. -/
theorem mmr_tiebreak_counterexample :
    (maximalMarginalRelevance [1] [c1E, c2E, c3E] (1 / 2) 10).map Chunk.content
      = ["c3", "c2", "c1"] ∧
    mmrScores (1 / 2) [{ c3E with similarity := 1 }]
      [{ c2E with similarity := 0 }, { c1E with similarity := -1 }] = [0, 0] ∧
    [c1E, c2E, c3E].indexOf c1E < [c1E, c2E, c3E].indexOf c2E := by
  refine ⟨?_, ?_, ?_⟩
  · rw [maximalMarginalRelevance, if_neg (by simp : ¬ ([c1E, c2E, c3E] = ([] : List Chunk)))]
    norm_num [mmrLoop, mmrScores, bestIdx, bestIdxAux, maxQ,
      cosineSimilarity, reduceDot, sumSquares, ratSqrt, floorSqrtNat_zero, floorSqrtNat_one,
      simOrder, List.insertionSort, List.orderedInsert, c1E, c2E, c3E]
  · norm_num [mmrScores, maxQ, cosineSimilarity, reduceDot, sumSquares, ratSqrt,
      floorSqrtNat_zero, floorSqrtNat_one, c1E, c2E, c3E]
  · decide

/-! ### MMR with lambda = 1 is plain top-k relevance (claim C6) -/

theorem mmrScores_lambda_one (selected remaining : List Chunk) :
    mmrScores 1 selected remaining = remaining.map Chunk.similarity := by
  simp [mmrScores]

theorem bestIdxAux_const :
    ∀ (rest : List ℚ) (i bi : ℕ) (bs : ℚ), (∀ x ∈ rest, x ≤ bs) →
      bestIdxAux i bi bs rest = bi := by
  intro rest
  induction rest with
  | nil => intro i bi bs _; rfl
  | cons s rest ih =>
    intro i bi bs h
    rw [bestIdxAux, if_neg (not_lt.mpr (h s (by simp)))]
    exact ih _ _ _ fun x hx => h x (by simp [hx])

theorem mmrLoop_lambda_one (k : ℕ) :
    ∀ (rem : List Chunk) (fuel : ℕ) (sel : List Chunk), rem.length ≤ fuel →
      rem.Pairwise simOrder → mmrLoop 1 k fuel sel rem = sel ++ rem.take (k - sel.length) := by
  intro rem
  induction rem with
  | nil =>
    intro fuel sel _ _
    simp [mmrLoop]
  | cons r rs ih =>
    intro fuel sel hlen hpw
    cases fuel with
    | zero => simp at hlen
    | succ fuel =>
      simp only [mmrLoop]
      by_cases hk : sel.length < k
      · rw [if_pos hk, mmrScores_lambda_one]
        have hbest : bestIdx ((r :: rs).map Chunk.similarity) = some 0 := by
          rw [List.map_cons, bestIdx, bestIdxAux_const]
          intro x hx
          rw [List.mem_map] at hx
          obtain ⟨c, hc, hx⟩ := hx
          exact hx ▸ (List.pairwise_cons.mp hpw).1 c hc
        rw [hbest]
        simp only [List.getD_cons_zero, List.eraseIdx_cons_zero]
        rw [ih fuel (sel ++ [r]) (by simpa using hlen) (List.pairwise_cons.mp hpw).2]
        have harith : k - sel.length = (k - (sel.length + 1)) + 1 := by omega
        simp only [List.length_append, List.length_singleton, harith, List.take_succ_cons]
        simp
      · rw [if_neg hk]
        have harith : k - sel.length = 0 := by omega
        simp [harith]

/-- C6: for every query vector and candidate list, MMR with `lambda = 1`
and `k ≥ 1` returns exactly the candidates sorted by cosine similarity to
the query in descending order, truncated to the first `k` (with `k = 0` the
JS code would still return the seeded top candidate, because the seed is
pushed before the loop guard is checked; the contract's `k` defaults
to 10). -/
theorem mmr_lambda_one_is_topk (queryEmbedding : List ℚ) (chunks : List Chunk) (k : ℕ)
    (hk : 1 ≤ k) :
    maximalMarginalRelevance queryEmbedding chunks 1 k =
      topKByRelevance queryEmbedding chunks k := by
  by_cases hc : chunks = []
  · subst hc
    simp [maximalMarginalRelevance, topKByRelevance, List.insertionSort]
  · rw [maximalMarginalRelevance, if_neg hc, topKByRelevance]
    have hlen : ((chunks.map fun c =>
        { c with similarity := cosineSimilarity queryEmbedding c.embedding }).insertionSort
          simOrder).length = chunks.length := by
      rw [List.length_insertionSort, List.length_map]
    have hsorted := List.sorted_insertionSort simOrder (chunks.map fun c =>
      { c with similarity := cosineSimilarity queryEmbedding c.embedding })
    rcases heq : (chunks.map fun c =>
        { c with similarity := cosineSimilarity queryEmbedding c.embedding }).insertionSort
          simOrder with _ | ⟨f, rem⟩
    · rw [heq] at hlen
      exact absurd (List.eq_nil_of_length_eq_zero hlen.symm) hc
    · rw [heq] at hsorted
      simp only [heq]
      rw [mmrLoop_lambda_one k rem rem.length [f] le_rfl (List.sorted_cons.mp hsorted).2]
      obtain ⟨k', rfl⟩ : ∃ k', k = k' + 1 := ⟨k - 1, by omega⟩
      rw [List.take_succ_cons]
      simp

/-- Witness for C6 at query `[1]`, a single candidate, `k = 10`. -/
theorem mmr_lambda_one_is_topk_witness :
    1 ≤ 10 ∧
    maximalMarginalRelevance [1] [⟨"w", "w", "doc", 0, [1]⟩] 1 10 =
      topKByRelevance [1] [⟨"w", "w", "doc", 0, [1]⟩] 10 :=
  ⟨by decide, mmr_lambda_one_is_topk [1] [⟨"w", "w", "doc", 0, [1]⟩] 10 (by decide)⟩

/-! ### Dimension handling of cosineSimilarity (claim C8) -/

theorem reduceDot_eq_zip_sum (b : List ℚ) :
    ∀ (a : List ℚ) (i : ℕ) (sum : ℚ), i + a.length ≤ b.length →
      reduceDot b a i sum = sum + ((a.zip (b.drop i)).map fun p => p.1 * p.2).sum := by
  intro a
  induction a with
  | nil =>
    intro i sum _
    simp [reduceDot]
  | cons x xs ih =>
    intro i sum h
    rw [reduceDot]
    have hi : i < b.length := by
      simp only [List.length_cons] at h
      omega
    rw [ih (i + 1) _ (by simp only [List.length_cons] at h ⊢; omega)]
    rw [List.drop_eq_getElem_cons hi, List.zip_cons_cons, List.map_cons, List.sum_cons,
      List.getD_eq_getElem b 0 hi]
    ring

/-- C8 as amended: `cosineSimilarity` never fails — the code has no
dimension check at all.  On equal dimensions it computes exactly the
spec's formula (`cosineSimilaritySpec`); on mismatched dimensions it still
returns a plain number, computed over `vecA`'s index range, e.g.
`cosineSimilarity [1] [3,4] = 3/5` (in JS, when `vecA` is the longer
vector, the out-of-range reads make the result `NaN`, which is also a
number, not an exception). -/
theorem cosineSimilarity_total_matches_spec :
    (∀ a b : List ℚ, a.length = b.length →
      cosineSimilaritySpec a b = Except.ok (cosineSimilarity a b)) ∧
    cosineSimilarity [1] [3, 4] = 3 / 5 := by
  constructor
  · intro a b h
    rw [cosineSimilaritySpec, if_neg (by omega), cosineSimilarity]
    have hdot : reduceDot b a 0 0 = ((a.zip b).map fun p => p.1 * p.2).sum := by
      rw [reduceDot_eq_zip_sum b a 0 0 (by omega)]
      simp
    by_cases hm : ratSqrt (sumSquares a) = 0 ∨ ratSqrt (sumSquares b) = 0
    · simp only [if_pos hm]
    · simp only [if_neg hm, hdot]
  · norm_num [cosineSimilarity, reduceDot, sumSquares, ratSqrt, floorSqrtNat_one,
      floorSqrtNat_25, toNat_25]

/-- Witness for the amended C8 on the equal-dimension pair `[1]`, `[2]`. -/
theorem cosineSimilarity_total_matches_spec_witness :
    cosineSimilaritySpec [1] [2] = Except.ok (cosineSimilarity [1] [2]) :=
  cosineSimilarity_total_matches_spec.1 [1] [2] (by decide)

/-- Counterexample to C8 as stated: the vectors `[1]` and `[3, 4]` have
different dimensions, yet `cosineSimilarity` returns the number `3/5`
instead of failing — the code contains no dimension check and no
`DimensionMismatchError` exists anywhere in the repository. -/
theorem cosineSimilarity_no_dimension_error :
    ([(1 : ℚ)] : List ℚ).length ≠ ([(3 : ℚ), 4] : List ℚ).length ∧
    cosineSimilarity [1] [3, 4] = 3 / 5 := by
  constructor
  · decide
  · norm_num [cosineSimilarity, reduceDot, sumSquares, ratSqrt, floorSqrtNat_one,
      floorSqrtNat_25, toNat_25]


/-! ### Context formatter (src/src/rag/index.js, lines 302-365; claim C4)

The document-name lookup in `formatChunksForContext` only annotates the
chunk objects with `documentName` metadata for the client; it contributes
nothing to the returned string (the header is plain `[Source N]`), so the
model omits it. -/

/-- One rendered block: the numbered `[Source N]` header, then the chunk
content and a blank-line separator. -/
def blockFor (idx : ℕ) (c : Chunk) : String :=
  ("[Source " ++ toString idx ++ "]\n") ++ (c.content ++ "\n\n")

/-- The accumulation loop of `formatChunksForContext`: append whole blocks
while the running buffer plus the new block stays within the budget, and
stop at the first block that would overflow. -/
def formatGo (maxLen : ℕ) : ℕ → String → List Chunk → String
  | _, context, [] => context
  | included, context, c :: rest =>
    let chunkHeader := "[Source " ++ toString (included + 1) ++ "]\n"
    let chunkContent := c.content ++ "\n\n"
    if context.length + chunkHeader.length + chunkContent.length ≤ maxLen then
      formatGo maxLen (included + 1) (context ++ (chunkHeader ++ chunkContent)) rest
    else context

/-- `formatChunksForContext`: empty input gives the empty string, otherwise
sort by similarity descending (stable) and run the budgeted accumulation;
`maxLen` is the configured `CONTEXT_MAX_LENGTH`. -/
def formatChunksForContext (maxLen : ℕ) (chunks : List Chunk) : String :=
  if chunks = [] then "" else formatGo maxLen 0 "" (chunks.insertionSort simOrder)

/-- The concatenation of whole rendered blocks for a chunk list, numbered
consecutively from `startIdx + 1`. -/
def blocksConcat (startIdx : ℕ) : List Chunk → String
  | [] => ""
  | c :: rest => blockFor (startIdx + 1) c ++ blocksConcat (startIdx + 1) rest

theorem formatGo_length_le (maxLen : ℕ) :
    ∀ (cs : List Chunk) (included : ℕ) (context : String),
      context.length ≤ maxLen → (formatGo maxLen included context cs).length ≤ maxLen := by
  intro cs
  induction cs with
  | nil =>
    intro included context h
    simpa [formatGo] using h
  | cons c rest ih =>
    intro included context h
    simp only [formatGo]
    by_cases hfit : context.length + ("[Source " ++ toString (included + 1) ++ "]\n").length +
        (c.content ++ "\n\n").length ≤ maxLen
    · rw [if_pos hfit]
      exact ih (included + 1) _ (by simp only [String.length_append] at hfit ⊢; omega)
    · rw [if_neg hfit]
      exact h

theorem formatGo_blocks (maxLen : ℕ) :
    ∀ (cs : List Chunk) (included : ℕ) (context : String),
      ∃ n ≤ cs.length, formatGo maxLen included context cs =
        context ++ blocksConcat included (cs.take n) := by
  intro cs
  induction cs with
  | nil =>
    intro included context
    exact ⟨0, le_rfl, by simp [formatGo, blocksConcat, String.append_empty]⟩
  | cons c rest ih =>
    intro included context
    simp only [formatGo]
    by_cases hfit : context.length + ("[Source " ++ toString (included + 1) ++ "]\n").length +
        (c.content ++ "\n\n").length ≤ maxLen
    · rw [if_pos hfit]
      obtain ⟨n, hn, heq⟩ := ih (included + 1)
        (context ++ (("[Source " ++ toString (included + 1) ++ "]\n") ++ (c.content ++ "\n\n")))
      refine ⟨n + 1, by simpa using Nat.succ_le_succ hn, ?_⟩
      rw [heq, List.take_succ_cons]
      show _ = context ++ (blockFor (included + 1) c ++ blocksConcat (included + 1) (rest.take n))
      rw [blockFor, String.append_assoc]
    · rw [if_neg hfit]
      exact ⟨0, Nat.zero_le _, by simp [blocksConcat, String.append_empty]⟩

/-- C4: the string returned by `formatChunksForContext` never exceeds the
configured character budget, and it is exactly the concatenation of whole
rendered blocks for a prefix of the similarity-sorted candidates, whose
`[Source N]` headers are numbered consecutively `1 .. n` where `n` is the
number of chunks actually included — overflowing candidates are dropped
whole, never truncated mid-block. -/
theorem formatChunksForContext_budget_and_numbering (maxLen : ℕ) (chunks : List Chunk) :
    (formatChunksForContext maxLen chunks).length ≤ maxLen ∧
    ∃ n ≤ chunks.length, formatChunksForContext maxLen chunks =
      blocksConcat 0 ((chunks.insertionSort simOrder).take n) := by
  constructor
  · rw [formatChunksForContext]
    by_cases hc : chunks = []
    · rw [if_pos hc]
      simp
    · rw [if_neg hc]
      exact formatGo_length_le maxLen _ 0 "" (by simp)
  · rw [formatChunksForContext]
    by_cases hc : chunks = []
    · subst hc
      exact ⟨0, le_rfl, by simp [blocksConcat]⟩
    · rw [if_neg hc]
      obtain ⟨n, hn, heq⟩ := formatGo_blocks maxLen (chunks.insertionSort simOrder) 0 ""
      refine ⟨n, by rwa [List.length_insertionSort] at hn, ?_⟩
      rw [heq, String.empty_append]


/-! ### Retriever and HyDE generator (src/src/rag/index.js, lines 96-295)

The retriever's external collaborators — the embedding provider, the
vector store and the language model — are pure oracles in an `Env`; within
one retrieval call the code consults each with the same arguments in both
modes, so determinism per call is faithful.  `onProgress` and the console
logging are side-effect-only and do not influence the returned value. -/

/-- A chat message as passed to the language model. -/
structure Message where
  role : String
  content : String
deriving DecidableEq

/-- The external collaborators: `generateEmbedding`,
`searchSimilarEmbeddings(vector, limit, overrideThreshold)` (`none` means
the JS `null` default, which makes the store fall back to
`SIMILARITY_THRESHOLD`), and the chat-completion call (`Except.error` for
any failure, including a malformed response). -/
structure Env where
  embed : String → List ℚ
  search : List ℚ → ℕ → Option ℚ → List Chunk
  llm : List Message → Except String String

/-- `generateHypotheticalDocument` (lines 96-136): build the prompt —
context-aware when a preliminary context is supplied — ask the model, and
fall back to the original query on any failure.  The function is total:
no failure of the model reaches the caller. -/
def generateHypotheticalDocument (env : Env) (query : String) (history : List Message)
    (context : Option String) : String :=
  let systemPrompt := match context with
    | some ctx =>
      "Based on the following context, please generate a comprehensive and detailed answer to the user query. This answer will be used to find more relevant documents, so it should be grounded in the provided information while expanding on the query. Do not include any preambles or disclaimers, just the answer.\n\nContext:\n"
        ++ ctx
    | none =>
      "Please generate a comprehensive and detailed answer to the user query. This answer will be used to find relevant documents, so it should be as complete as possible. Do not include any preambles or disclaimers, just the answer."
  let messages := history ++ [⟨"user", query⟩, ⟨"system", systemPrompt⟩]
  match env.llm messages with
  | Except.ok doc => doc
  | Except.error _ => query

/-- `retrieveRelevantChunks` (lines 222-295): embed the query; in
deep-search mode run the preliminary low-threshold search (limit 20,
threshold `DEEP_SEARCH_INITIAL_THRESHOLD`, the `dsThreshold` parameter)
and, when it returns candidates, format them as grounding context for
HyDE; generate the hypothetical document; re-embed it unless generation
fell back to the query; over-fetch 50 candidates with the search vector at
the store's default threshold; MMR re-rank against the original query
embedding with the JS defaults `lambda = 0.5`, `k = 10`. -/
def retrieveRelevantChunks (env : Env) (dsThreshold : ℚ) (maxLen : ℕ) (query : String)
    (history : List Message) (useDeepSearch : Bool) : List Chunk :=
  let queryEmbedding := env.embed query
  let contextForHyDE : Option String :=
    if useDeepSearch then
      let initialChunks := env.search queryEmbedding 20 (some dsThreshold)
      if 0 < initialChunks.length then some (formatChunksForContext maxLen initialChunks)
      else none
    else none
  let hypotheticalDocument := generateHypotheticalDocument env query history contextForHyDE
  let searchEmbedding :=
    if hypotheticalDocument ≠ query then env.embed hypotheticalDocument else queryEmbedding
  let similarChunks := env.search searchEmbedding 50 none
  maximalMarginalRelevance queryEmbedding similarChunks (1 / 2) 10

/-- C3: when deep-search mode's preliminary search returns zero candidates,
the deep-search retrieval is identical to standard retrieval for the same
query, history, embedding responses and vector-store responses. -/
theorem deep_search_fallback_equivalence (env : Env) (dsThreshold : ℚ) (maxLen : ℕ)
    (query : String) (history : List Message)
    (h : env.search (env.embed query) 20 (some dsThreshold) = []) :
    retrieveRelevantChunks env dsThreshold maxLen query history true =
      retrieveRelevantChunks env dsThreshold maxLen query history false := by
  simp [retrieveRelevantChunks, h]

/-- A concrete environment whose vector store is empty and whose language
model is down. -/
def envW : Env :=
  ⟨fun _ => [1], fun _ _ _ => [], fun _ => Except.error "offline"⟩

/-- Witness for C3 in the concrete environment `envW`. -/
theorem deep_search_fallback_equivalence_witness :
    retrieveRelevantChunks envW 0 4096 "q" [] true =
      retrieveRelevantChunks envW 0 4096 "q" [] false :=
  deep_search_fallback_equivalence envW 0 4096 "q" [] rfl

/-- C7: whenever the language-model call fails, the HyDE generator returns
the original query unchanged; being a total function, it propagates no
failure to its caller. -/
theorem hyde_failure_returns_query (env : Env) (query : String) (history : List Message)
    (context : Option String) (e : String)
    (h : ∀ msgs, env.llm msgs = Except.error e) :
    generateHypotheticalDocument env query history context = query := by
  simp [generateHypotheticalDocument, h]

/-- Witness for C7 in the concrete environment `envW`. -/
theorem hyde_failure_returns_query_witness :
    generateHypotheticalDocument envW "q" [] none = "q" :=
  hyde_failure_returns_query envW "q" [] none "offline" fun _ => rfl

/-! ### Database rows and document deletion (src/unnamed/part_003; claim C9) -/

/-- A row of the `documents` table (the columns the claim concerns). -/
structure DocRow where
  id : String
  name : String
deriving DecidableEq

/-- A row of the `chunks` table; `rowid` is the SQLite rowid that keys the
1:1 `vss_embeddings` row. -/
structure ChunkRow where
  rowid : ℕ
  id : String
  document_id : String
  content : String
deriving DecidableEq

/-- A row of the `vss_embeddings` virtual table, keyed by the owning
chunk's rowid. -/
structure EmbRow where
  rowid : ℕ
deriving DecidableEq

/-- The relational state the claim concerns. -/
structure DBState where
  documents : List DocRow
  chunks : List ChunkRow
  embeddings : List EmbRow
deriving DecidableEq

/-- `deleteDocument` of src/unnamed/part_003 (lines 114-139), one
transaction: collect the rowids of the document's chunks, delete the
`vss_embeddings` rows with those rowids, then delete the document row.
The chunk rows disappear with the document through the schema's
`ON DELETE CASCADE` on `chunks.document_id` (lines 48-56), which the
SQLite driver enforces (better-sqlite3 enables foreign keys by default). -/
def deleteDocument (st : DBState) (id : String) : DBState :=
  let rowIds := (st.chunks.filter fun c => c.document_id == id).map ChunkRow.rowid
  let embeddings' := st.embeddings.filter fun e => !(rowIds.contains e.rowid)
  let documents' := st.documents.filter fun d => !(d.id == id)
  let chunks' := st.chunks.filter fun c => !(c.document_id == id)
  ⟨documents', chunks', embeddings'⟩

/-- C9: after `deleteDocument id`, no document row has that id, no chunk
row belongs to that document, and no embedding row belongs to any chunk
that belonged to that document — the document is deleted as a unit,
cascading to its chunks and embeddings. -/
theorem deleteDocument_cascades (st : DBState) (id : String) :
    (∀ d ∈ (deleteDocument st id).documents, d.id ≠ id) ∧
    (∀ c ∈ (deleteDocument st id).chunks, c.document_id ≠ id) ∧
    (∀ e ∈ (deleteDocument st id).embeddings, ∀ c ∈ st.chunks,
      c.document_id = id → e.rowid ≠ c.rowid) := by
  refine ⟨?_, ?_, ?_⟩
  · intro d hd
    simpa using (List.mem_filter.mp hd).2
  · intro c hc
    simpa using (List.mem_filter.mp hc).2
  · intro e he c hc hdoc heq
    have hcont := (List.mem_filter.mp he).2
    have hrow : c.rowid ∈ (st.chunks.filter fun c => c.document_id == id).map ChunkRow.rowid :=
      List.mem_map_of_mem _ (List.mem_filter.mpr ⟨hc, by simp [hdoc]⟩)
    rw [← heq] at hrow
    simp [hrow] at hcont

/-- A two-document database state for the C9 witness. -/
def stW : DBState :=
  ⟨[⟨"d1", "one"⟩, ⟨"d2", "two"⟩],
   [⟨1, "c1", "d1", "x"⟩, ⟨2, "c2", "d2", "y"⟩],
   [⟨1⟩, ⟨2⟩]⟩

/-- Witness for C9: deleting `"d1"` from `stW` and instantiating each
conjunct at the surviving rows. -/
theorem deleteDocument_cascades_witness :
    ("d2" : String) ≠ "d1" ∧ ("d2" : String) ≠ "d1" ∧ (2 : ℕ) ≠ 1 :=
  ⟨(deleteDocument_cascades stW "d1").1 ⟨"d2", "two"⟩ (by decide),
   (deleteDocument_cascades stW "d1").2.1 ⟨2, "c2", "d2", "y"⟩ (by decide),
   (deleteDocument_cascades stW "d1").2.2 ⟨2⟩ (by decide) ⟨1, "c1", "d1", "x"⟩ (by decide)
     (by decide)⟩

end DocuChat
